import Mathlib

/-!
Verification development for the Santa route planner (`santa_planner.py`).

The Python source is shallowly embedded here:

* data rows (children, articles) become immutable structures with `ℚ`-valued
  weights, volumes and coordinates (the source stores floats; exact rationals
  keep every capacity decision decidable);
* the pandas primitives used by the source are modelled by small list
  functions: `Series.idxmin` (documented by pandas to return the first label
  attaining the minimum) becomes `idxmin_extract`, and `Series.sort_values`
  becomes the ascending sort `sort_values_by` — a determinization, since the
  default quicksort's tie order is unspecified; no theorem below depends on
  the order of equal keys;
* the possibly non-terminating outer loop of `greedy_cluster_by_capacity`
  becomes a fuel-indexed function returning `none` when the iteration has not
  finished within the given number of outer rounds, so non-termination of the
  source loop is expressible as `∀ fuel, … = none`;
* the inner trip-building loop always terminates in the source (every round
  either adds a child or breaks), and is given fuel `remaining.length + 1`,
  which is always sufficient;
* the great-circle distance is a genuine real-valued function
  (`haversine_distance`); the clustering and sequencing code only consumes
  distances through comparisons, so those functions are parametrised by an
  arbitrary linearly ordered distance measure `d`, instantiated with
  `child_distance` (the haversine measure on stored coordinates) to recover
  the program itself.
-/

/-- An article row of the `Articles` sheet: identifier, weight, volume. -/
structure Article where
  article : ℕ
  weight : ℚ
  volume : ℚ
deriving DecidableEq, Repr

/-- A good-child row of the input sheet: identifier, latitude, longitude and
the demanded article (`wish`).  Only eligible (non-naughty) children reach the
core, so the eligibility flag is already filtered away. -/
structure Child where
  child : ℕ
  latitude : ℚ
  longitude : ℚ
  wish : ℕ
deriving DecidableEq, Repr

/-- The two sleigh capacity scalars from the `Slay Meta Data` sheet. -/
structure CapacityLimits where
  maxWeight : ℚ
  maxVolume : ℚ
deriving DecidableEq, Repr

/-- The cost parameters from the `Slay Meta Data` sheet: speed (km/h) and
dwell time per delivery stop (minutes). -/
structure CostParams where
  speedKmh : ℝ
  timePerStopMin : ℝ

/-- A stored coordinate pair (latitude, longitude) in degrees. -/
abbrev Coord : Type := ℚ × ℚ

/-- The depot: `self.north_pole = (90.0, 0.0)`. -/
def north_pole : Coord := (90, 0)

/-- The coordinate pair of a child, as read from its row. -/
def coordOf (c : Child) : Coord := (c.latitude, c.longitude)

/-- One row of the serialized route plan: refill rows carry `stop = 0` with an
article/pieces pair, delivery rows carry the child identifier and no payload. -/
structure RouteEntry where
  stop : ℕ
  article : Option ℕ
  pieces : Option ℕ
deriving DecidableEq, Repr

/-! ### Modelling the pandas selection primitives -/

/-- Stable insertion of `x` into an already sorted list: `x` is placed before
the first element whose key is not strictly smaller, so earlier-input elements
win ties.  Together with `sort_values_by` this models
`Series.sort_values` as a stable ascending sort. -/
def insertByKey {α β : Type} [LinearOrder β] (key : α → β) (x : α) : List α → List α
  | [] => [x]
  | y :: l => if key y < key x then y :: insertByKey key x l else x :: y :: l

/-- Ascending sort by a key, modelling `Series.sort_values` as used in
`greedy_cluster_by_capacity` (the source then walks the sorted index order).
pandas' default sort kind (quicksort) does not guarantee a tie order, so this
stable first-on-ties sort is a determinization of the source, adequate only
for properties that do not depend on the order of equal keys: every theorem
below uses it solely through permutation, membership and length facts, which
hold for any tie order. -/
def sort_values_by {α β : Type} [LinearOrder β] (key : α → β) : List α → List α
  | [] => []
  | x :: l => insertByKey key x (sort_values_by key l)

/-- Modelling `Series.idxmin` followed by `DataFrame.drop`: return the first
element attaining the minimal key together with the remaining list.  pandas
documents `idxmin` to return the first label on ties. -/
def idxmin_extract {α β : Type} [LinearOrder β] (key : α → β) : List α → Option (α × List α)
  | [] => none
  | x :: xs =>
    match idxmin_extract key xs with
    | none => some (x, [])
    | some (m, rest) => if key m < key x then some (m, x :: rest) else some (x, xs)

/-! ### CapacityModel -/

/-- `get_article_info`: weight and volume of the first article row matching the
identifier, `(0, 0)` when no row matches. -/
def get_article_info (articles : List Article) (article_id : ℕ) : ℚ × ℚ :=
  match articles.find? (fun a => a.article == article_id) with
  | none => (0, 0)
  | some a => (a.weight, a.volume)

/-- Occurrence tally of a list of article identifiers, one entry per distinct
identifier in first-appearance order; models `Series.value_counts().to_dict()`
(the dictionary order never matters: it is only summed over or re-sorted). -/
def tallyWishes (ws : List ℕ) : List (ℕ × ℕ) :=
  (ws.foldl (fun acc w => if w ∈ acc then acc else acc ++ [w]) []).map
    (fun w => (w, ws.count w))

/-- `calculate_load_requirements`: how many pieces of each article a subset of
children demands (one unit per child's wish). -/
def calculate_load_requirements (children_subset : List Child) : List (ℕ × ℕ) :=
  tallyWishes (children_subset.map (fun c => c.wish))

/-- `can_fit_in_sleigh`: accumulate total weight and volume of the demanded
articles and compare both against the sleigh limits. -/
def can_fit_in_sleigh (articles : List Article) (limits : CapacityLimits)
    (article_counts : List (ℕ × ℕ)) : Bool :=
  let totals := article_counts.foldl
    (fun acc p =>
      let wv := get_article_info articles p.1
      (acc.1 + wv.1 * p.2, acc.2 + wv.2 * p.2))
    ((0 : ℚ), (0 : ℚ))
  decide (totals.1 ≤ limits.maxWeight) && decide (totals.2 ≤ limits.maxVolume)

/-! ### TripBuilder (`greedy_cluster_by_capacity`)

The clustering and sequencing code consume distances only through order
comparisons, so they are parametrised by a distance measure
`d : Coord → Coord → β` into a linear order; the program itself is the
instantiation at `child_distance` below. -/

section Builder

variable {β : Type} [LinearOrder β]

/-- The inner candidate scan of `greedy_cluster_by_capacity`: walk the
distance-sorted candidates and return the first one whose addition to the
current trip still fits the sleigh. -/
def findFit (articles : List Article) (limits : CapacityLimits)
    (current_trip : List Child) : List Child → Option Child
  | [] => none
  | c :: cs =>
    if can_fit_in_sleigh articles limits
        (calculate_load_requirements (current_trip ++ [c])) then
      some c
    else findFit articles limits current_trip cs

/-- One pass of the candidate loop (sort by distance from the cursor, take the
first fitting candidate, drop it from the remaining rows).  `none` models
`added_any = False`. -/
def tryAdd (d : Coord → Coord → β) (articles : List Article)
    (limits : CapacityLimits) (current_coord : Coord)
    (current_trip trip_remaining : List Child) : Option (Child × List Child) :=
  (findFit articles limits current_trip
      (sort_values_by (fun c => d current_coord (coordOf c)) trip_remaining)).map
    (fun c => (c, trip_remaining.erase c))

/-- The inner `while trip_remaining` loop: keep adding the nearest fitting
candidate, restarting the scan from the freshly added child's location, until
no candidate fits.  Returns the built trip and the rows still remaining.  The
source loop always terminates; the fuel (always called with
`trip_remaining.length + 1`, which suffices because every round removes a row)
only makes the recursion structural. -/
def buildTrip (d : Coord → Coord → β) (articles : List Article)
    (limits : CapacityLimits) :
    ℕ → Coord → List Child → List Child → List Child × List Child
  | 0, _, current_trip, trip_remaining => (current_trip, trip_remaining)
  | fuel + 1, current_coord, current_trip, trip_remaining =>
    match tryAdd d articles limits current_coord current_trip trip_remaining with
    | none => (current_trip, trip_remaining)
    | some (c, rest) =>
      buildTrip d articles limits fuel (coordOf c) (current_trip ++ [c]) rest

/-- The outer `while remaining` loop of `greedy_cluster_by_capacity`.  In the
source, dropping `current_trip.index` from `remaining` leaves exactly the
rows still in `trip_remaining`, so the next round continues from `rest`.  When
the built trip is empty the source removes nothing and retries the identical
state forever; here that burns one unit of fuel, so a run that returns `none`
for every fuel is exactly a run on which the source loops forever. -/
def greedy_cluster_by_capacity (d : Coord → Coord → β) (articles : List Article)
    (limits : CapacityLimits) : ℕ → List Child → Option (List (List Child))
  | 0, _ => none
  | fuel + 1, remaining =>
    if remaining.isEmpty then some []
    else
      let bt := buildTrip d articles limits (remaining.length + 1)
        north_pole [] remaining
      if bt.1.isEmpty then
        greedy_cluster_by_capacity d articles limits fuel remaining
      else
        (greedy_cluster_by_capacity d articles limits fuel bt.2).map
          (fun trips => bt.1 :: trips)

/-! ### RouteSequencer (`nearest_neighbor_from_point`) -/

/-- `nearest_neighbor_from_point`: repeatedly extract the remaining child
nearest to the cursor (first row on ties, per `idxmin`) and move the cursor
there.  The source loop removes one row per round; fuel
`remaining.length + 1` always suffices. -/
def nearest_neighbor_from_point (d : Coord → Coord → β) :
    ℕ → Coord → List Child → List Child
  | 0, _, _ => []
  | fuel + 1, current_coord, remaining =>
    match idxmin_extract (fun c => d current_coord (coordOf c)) remaining with
    | none => []
    | some (c, rest) =>
      c :: nearest_neighbor_from_point d fuel (coordOf c) rest

/-- `optimize_trip_route`: order one trip's stops by nearest neighbour from the
North Pole. -/
def optimize_trip_route (d : Coord → Coord → β) (trip : List Child) : List Child :=
  nearest_neighbor_from_point d (trip.length + 1) north_pole trip

/-! ### Plan serialization (`generate_route_plan`) -/

/-- The refill rows of one trip: one row per distinct demanded article, in
ascending article order (`sorted(article_counts.items())`), with `stop = 0`. -/
def refillRows (trip : List Child) : List RouteEntry :=
  (sort_values_by (fun p => p.1) (calculate_load_requirements trip)).map
    (fun p => { stop := 0, article := some p.1, pieces := some p.2 })

/-- The delivery rows of one trip: its stops in optimized visiting order. -/
def deliveryRows (d : Coord → Coord → β) (trip : List Child) : List RouteEntry :=
  (optimize_trip_route d trip).map
    (fun c => { stop := c.child, article := none, pieces := none })

/-- `generate_route_plan`: cluster the children into trips, then emit, per
trip, its refill rows followed by its optimized delivery rows.  `none` when
the clustering loop has not finished within the given fuel. -/
def generate_route_plan (d : Coord → Coord → β) (articles : List Article)
    (limits : CapacityLimits) (fuel : ℕ) (good_children : List Child) :
    Option (List RouteEntry) :=
  (greedy_cluster_by_capacity d articles limits fuel good_children).map
    (fun trips =>
      (trips.map (fun trip => refillRows trip ++ deliveryRows d trip)).flatten)

end Builder

/-- `total_stops` of `save_statistics`: the number of delivery rows. -/
def total_stops (route_plan : List RouteEntry) : ℕ :=
  (route_plan.filter (fun s => s.stop != 0)).length

/-- `total_refills` of `save_statistics`: the number of `stop = 0` rows. -/
def total_refills (route_plan : List RouteEntry) : ℕ :=
  (route_plan.filter (fun s => s.stop == 0)).length

/-! ### GeoMetric (`haversine_distance`) -/

/-- The two-argument arctangent as computed by `math.atan2`, by the usual case
split on the quadrant (`atan2(0, 0) = 0`, like Python). -/
noncomputable def atan2 (y x : ℝ) : ℝ :=
  if 0 < x then Real.arctan (y / x)
  else if x < 0 ∧ 0 ≤ y then Real.arctan (y / x) + Real.pi
  else if x < 0 ∧ y < 0 then Real.arctan (y / x) - Real.pi
  else if x = 0 ∧ 0 < y then Real.pi / 2
  else if x = 0 ∧ y < 0 then -(Real.pi / 2)
  else 0

/-- `math.radians`: degrees to radians. -/
noncomputable def radiansOf (deg : ℝ) : ℝ := deg * Real.pi / 180

/-- The haversine intermediate value
`a = sin²(Δlat/2) + cos lat1 · cos lat2 · sin²(Δlon/2)` (in radians). -/
noncomputable def haversineA (coord1 coord2 : ℝ × ℝ) : ℝ :=
  Real.sin ((radiansOf coord2.1 - radiansOf coord1.1) / 2) ^ 2 +
    Real.cos (radiansOf coord1.1) * Real.cos (radiansOf coord2.1) *
      Real.sin ((radiansOf coord2.2 - radiansOf coord1.2) / 2) ^ 2

/-- `haversine_distance`: great-circle distance on a sphere of radius 6371
between two (latitude, longitude) pairs in degrees. -/
noncomputable def haversine_distance (coord1 coord2 : ℝ × ℝ) : ℝ :=
  6371 * (2 * atan2 (Real.sqrt (haversineA coord1 coord2))
    (Real.sqrt (1 - haversineA coord1 coord2)))

/-- The distance measure the planner actually uses: the haversine distance of
two stored coordinate pairs. -/
noncomputable def child_distance (a b : Coord) : ℝ :=
  haversine_distance ((a.1 : ℝ), (a.2 : ℝ)) ((b.1 : ℝ), (b.2 : ℝ))

/-! ### CostModel (`calculate_total_distance`, `calculate_total_time`) -/

/-- Row lookup `good_children[good_children['child'] == stop]` followed by
`iloc[0]`: the first child row carrying the identifier, or `none` (where the
source would raise `IndexError`). -/
def findChild (good_children : List Child) (stop : ℕ) : Option Child :=
  good_children.find? (fun ch => ch.child == stop)

/-- The loop body of `calculate_total_distance`, with the running cursor and
accumulated total made explicit; after the rows are exhausted the return leg
to the North Pole is added.  `none` when a delivery row names an unknown
child. -/
noncomputable def distanceLoop (good_children : List Child) :
    Coord → ℝ → List RouteEntry → Option ℝ
  | current_coord, total, [] =>
    some (total + child_distance current_coord north_pole)
  | current_coord, total, stop :: rest =>
    if stop.stop = 0 then
      if current_coord ≠ north_pole then
        distanceLoop good_children north_pole
          (total + child_distance current_coord north_pole) rest
      else distanceLoop good_children current_coord total rest
    else
      match findChild good_children stop.stop with
      | none => none
      | some ch =>
        distanceLoop good_children (coordOf ch)
          (total + child_distance current_coord (coordOf ch)) rest

/-- `calculate_total_distance`: walk the flat route plan from the North Pole
and sum the leg distances, including the final return leg. -/
noncomputable def calculate_total_distance (good_children : List Child)
    (route_plan : List RouteEntry) : Option ℝ :=
  distanceLoop good_children north_pole 0 route_plan

/-- `calculate_total_time`: travel hours at constant speed plus dwell hours,
`delivery_stops * time_per_stop_min / 60`. -/
noncomputable def calculate_total_time (good_children : List Child)
    (params : CostParams) (route_plan : List RouteEntry) : Option ℝ :=
  (calculate_total_distance good_children route_plan).map
    (fun distance =>
      distance / params.speedKmh +
        (total_stops route_plan : ℝ) * params.timePerStopMin / 60)

/-- The total-distance computation exactly as §4.5 of the specification words
it: start the cursor at the depot; at a refill marker add the
cursor-to-depot distance and reset the cursor unless the cursor is already at
the depot (then add zero); at a delivery stop add the leg and advance the
cursor; after the last row add the return leg to the depot. -/
noncomputable def spec_total_distance_walk (good_children : List Child) :
    Coord → List RouteEntry → Option ℝ
  | cursor, [] => some (child_distance cursor north_pole)
  | cursor, e :: rest =>
    if e.stop = 0 then
      (spec_total_distance_walk good_children north_pole rest).map
        (fun s =>
          (if cursor = north_pole then 0 else child_distance cursor north_pole) + s)
    else
      match findChild good_children e.stop with
      | none => none
      | some ch =>
        (spec_total_distance_walk good_children (coordOf ch) rest).map
          (fun s => child_distance cursor (coordOf ch) + s)


/-- A trivially computable distance measure (constant zero) used to exercise
the distance-generic operations on concrete inputs. -/
def zero_distance : Coord → Coord → ℕ := fun _ _ => 0

/-- Two light one-unit articles for concrete runs. -/
def demo_articles : List Article := [⟨1, 1, 1⟩, ⟨2, 1, 1⟩]

/-- Roomy limits: both demo articles fit together. -/
def demo_limits : CapacityLimits := ⟨10, 10⟩

/-- A child at (0, 0) wishing article 1. -/
def demo_child1 : Child := ⟨1, 0, 0, 1⟩

/-- A second child at the same location wishing article 2. -/
def demo_child2 : Child := ⟨2, 0, 0, 2⟩

/-- A single article too heavy for the tight limits below. -/
def heavy_articles : List Article := [⟨1, 10, 1⟩]

/-- Limits whose maximum weight (5) is below the heavy article's weight (10). -/
def heavy_limits : CapacityLimits := ⟨5, 100⟩

/-- A child whose single wish alone can never fit under `heavy_limits`. -/
def heavy_child : Child := ⟨1, 0, 0, 1⟩

/-! ### Lemmas on the selection primitives -/

section SelectionLemmas

variable {α β : Type} [LinearOrder β] (key : α → β)

theorem insertByKey_perm (x : α) (l : List α) :
    (insertByKey key x l).Perm (x :: l) := by
  induction l with
  | nil => simp [insertByKey]
  | cons y l ih =>
    by_cases h : key y < key x
    · simpa [insertByKey, h] using ((ih.cons y).trans (List.Perm.swap x y l))
    · simp [insertByKey, h]

theorem sort_values_by_perm (l : List α) :
    (sort_values_by key l).Perm l := by
  induction l with
  | nil => simp [sort_values_by]
  | cons x l ih =>
    exact (insertByKey_perm key x (sort_values_by key l)).trans (ih.cons x)

theorem mem_sort_values_by {l : List α} {a : α} :
    a ∈ sort_values_by key l ↔ a ∈ l :=
  (sort_values_by_perm key l).mem_iff

theorem length_sort_values_by (l : List α) :
    (sort_values_by key l).length = l.length :=
  (sort_values_by_perm key l).length_eq

theorem idxmin_extract_nil_iff {l : List α} :
    idxmin_extract key l = none ↔ l = [] := by
  cases l with
  | nil => simp [idxmin_extract]
  | cons x xs =>
    simp only [idxmin_extract]
    cases idxmin_extract key xs with
    | none => simp
    | some p =>
      obtain ⟨m, rest⟩ := p
      by_cases h : key m < key x <;> simp [h]

/-- The first-label-on-ties specification of `idxmin_extract`: the selected
element is minimal, every strictly earlier element has a strictly larger key,
and the returned remainder is the input with the selected occurrence removed. -/
theorem idxmin_extract_spec {l : List α} (h : l ≠ []) :
    ∃ c pre post, idxmin_extract key l = some (c, pre ++ post) ∧
      l = pre ++ c :: post ∧ (∀ x ∈ l, key c ≤ key x) ∧
      ∀ x ∈ pre, key c < key x := by
  induction l with
  | nil => exact absurd rfl h
  | cons x xs ih =>
    cases hidx : idxmin_extract key xs with
    | none =>
      have hnil : xs = [] := (idxmin_extract_nil_iff key).mp hidx
      subst hnil
      exact ⟨x, [], [], by simp [idxmin_extract], by simp, by simp, by simp⟩
    | some p =>
      obtain ⟨m, rest⟩ := p
      have hxs : xs ≠ [] := by
        intro hn
        rw [hn] at hidx
        simp [idxmin_extract] at hidx
      obtain ⟨c, pre, post, hidx2, hsplit, hmin, hpre⟩ := ih hxs
      rw [hidx] at hidx2
      simp only [Option.some.injEq, Prod.mk.injEq] at hidx2
      obtain ⟨rfl, rfl⟩ := hidx2
      by_cases hlt : key m < key x
      · refine ⟨m, x :: pre, post, ?_, by simp [hsplit], ?_, ?_⟩
        · simp [idxmin_extract, hidx, hlt]
        · intro z hz
          rcases List.mem_cons.mp hz with rfl | hz
          · exact hlt.le
          · exact hmin z hz
        · intro z hz
          rcases List.mem_cons.mp hz with rfl | hz
          · exact hlt
          · exact hpre z hz
      · refine ⟨x, [], xs, ?_, by simp, ?_, by simp⟩
        · simp [idxmin_extract, hidx, hlt]
        · intro z hz
          rcases List.mem_cons.mp hz with rfl | hz
          · exact le_refl _
          · exact (le_of_not_lt hlt).trans (hmin z hz)

/-- The head of the stable ascending sort is the same element `idxmin` picks. -/
theorem sort_values_by_head (l : List α) :
    (sort_values_by key l).head? = (idxmin_extract key l).map (fun p => p.1) := by
  induction l with
  | nil => simp [sort_values_by, idxmin_extract]
  | cons x xs ih =>
    cases hidx : idxmin_extract key xs with
    | none =>
      have hnil : xs = [] := (idxmin_extract_nil_iff key).mp hidx
      subst hnil
      simp [sort_values_by, insertByKey, idxmin_extract]
    | some p =>
      obtain ⟨m, rest⟩ := p
      rw [hidx] at ih
      cases hsort : sort_values_by key xs with
      | nil =>
        rw [hsort] at ih
        simp at ih
      | cons a t =>
        rw [hsort] at ih
        have ham : a = m := by simpa using ih
        subst ham
        by_cases hlt : key a < key x
        · simp [sort_values_by, hsort, insertByKey, hlt, idxmin_extract, hidx]
        · simp [sort_values_by, hsort, insertByKey, hlt, idxmin_extract, hidx]

end SelectionLemmas

/-! ### Lemmas on the capacity model -/

theorem can_fit_foldl (articles : List Article) (demand : List (ℕ × ℕ)) :
    ∀ init : ℚ × ℚ,
      demand.foldl
          (fun acc p =>
            let wv := get_article_info articles p.1
            (acc.1 + wv.1 * p.2, acc.2 + wv.2 * p.2)) init =
        (init.1 + (demand.map (fun p => (get_article_info articles p.1).1 * p.2)).sum,
          init.2 + (demand.map (fun p => (get_article_info articles p.1).2 * p.2)).sum) := by
  induction demand with
  | nil => intro init; simp
  | cons p ps ih =>
    intro init
    simp only [List.foldl_cons, List.map_cons, List.sum_cons, ih]
    simp only [Prod.mk.injEq]
    constructor <;> ring

theorem can_fit_in_sleigh_iff (articles : List Article) (limits : CapacityLimits)
    (demand : List (ℕ × ℕ)) :
    can_fit_in_sleigh articles limits demand = true ↔
      (demand.map (fun p => (get_article_info articles p.1).1 * p.2)).sum ≤ limits.maxWeight ∧
      (demand.map (fun p => (get_article_info articles p.1).2 * p.2)).sum ≤ limits.maxVolume := by
  simp [can_fit_in_sleigh, can_fit_foldl]

/-! ### Lemmas on TripBuilder -/

section BuilderLemmas

variable {β : Type} [LinearOrder β]

theorem findFit_eq_some {articles : List Article} {limits : CapacityLimits}
    {trip : List Child} {cs : List Child} {c : Child}
    (h : findFit articles limits trip cs = some c) :
    c ∈ cs ∧ can_fit_in_sleigh articles limits
      (calculate_load_requirements (trip ++ [c])) = true := by
  induction cs with
  | nil => simp [findFit] at h
  | cons a cs ih =>
    by_cases hfit : can_fit_in_sleigh articles limits
        (calculate_load_requirements (trip ++ [a])) = true
    · rw [findFit, if_pos hfit] at h
      obtain rfl : a = c := by simpa using h
      exact ⟨List.mem_cons_self a cs, hfit⟩
    · rw [findFit, if_neg hfit] at h
      obtain ⟨hmem, hfits⟩ := ih h
      exact ⟨List.mem_cons_of_mem a hmem, hfits⟩

theorem findFit_eq_none_of {articles : List Article} {limits : CapacityLimits}
    {trip : List Child} {cs : List Child}
    (h : ∀ c ∈ cs, can_fit_in_sleigh articles limits
      (calculate_load_requirements (trip ++ [c])) = false) :
    findFit articles limits trip cs = none := by
  induction cs with
  | nil => rfl
  | cons a cs ih =>
    have hfa := h a (List.mem_cons_self a cs)
    rw [findFit, if_neg (by simp [hfa])]
    exact ih fun c hc => h c (List.mem_cons_of_mem a hc)

theorem tryAdd_eq_some {d : Coord → Coord → β} {articles : List Article}
    {limits : CapacityLimits} {coord : Coord} {trip rem : List Child}
    {c : Child} {rest : List Child}
    (h : tryAdd d articles limits coord trip rem = some (c, rest)) :
    c ∈ rem ∧ rest = rem.erase c ∧ can_fit_in_sleigh articles limits
      (calculate_load_requirements (trip ++ [c])) = true := by
  rw [tryAdd] at h
  rcases hf : findFit articles limits trip
      (sort_values_by (fun x => d coord (coordOf x)) rem) with _ | c'
  · rw [hf] at h; simp at h
  · rw [hf] at h
    have h2 : c' = c ∧ rem.erase c' = rest := by simpa using h
    obtain ⟨rfl, rfl⟩ := h2
    obtain ⟨hmem, hfit⟩ := findFit_eq_some hf
    exact ⟨(mem_sort_values_by _).mp hmem, rfl, hfit⟩

theorem tryAdd_eq_none_of {d : Coord → Coord → β} {articles : List Article}
    {limits : CapacityLimits} {coord : Coord} {trip rem : List Child}
    (h : ∀ c ∈ rem, can_fit_in_sleigh articles limits
      (calculate_load_requirements (trip ++ [c])) = false) :
    tryAdd d articles limits coord trip rem = none := by
  rw [tryAdd, findFit_eq_none_of fun c hc => h c ((mem_sort_values_by _).mp hc)]
  rfl

theorem buildTrip_perm (d : Coord → Coord → β) (articles : List Article)
    (limits : CapacityLimits) :
    ∀ (fuel : ℕ) (coord : Coord) (trip rem : List Child),
      ((buildTrip d articles limits fuel coord trip rem).1 ++
        (buildTrip d articles limits fuel coord trip rem).2).Perm (trip ++ rem) := by
  intro fuel
  induction fuel with
  | zero => intro coord trip rem; simp [buildTrip]
  | succ n ih =>
    intro coord trip rem
    cases hta : tryAdd d articles limits coord trip rem with
    | none => simp [buildTrip, hta]
    | some p =>
      obtain ⟨c, rest⟩ := p
      obtain ⟨hmem, hrest, -⟩ := tryAdd_eq_some hta
      subst hrest
      have hperm : rem.Perm (c :: rem.erase c) := List.perm_cons_erase hmem
      rw [buildTrip]
      simp only [hta]
      refine (ih (coordOf c) (trip ++ [c]) (rem.erase c)).trans ?_
      rw [List.append_assoc, List.singleton_append]
      exact (List.Perm.append_left trip hperm).symm

theorem buildTrip_fits (d : Coord → Coord → β) (articles : List Article)
    (limits : CapacityLimits) :
    ∀ (fuel : ℕ) (coord : Coord) (trip rem : List Child),
      (trip = [] ∨ can_fit_in_sleigh articles limits
        (calculate_load_requirements trip) = true) →
      ((buildTrip d articles limits fuel coord trip rem).1 = [] ∨
        can_fit_in_sleigh articles limits
          (calculate_load_requirements
            (buildTrip d articles limits fuel coord trip rem).1) = true) := by
  intro fuel
  induction fuel with
  | zero => intro coord trip rem h; simpa [buildTrip] using h
  | succ n ih =>
    intro coord trip rem h
    cases hta : tryAdd d articles limits coord trip rem with
    | none => simpa [buildTrip, hta] using h
    | some p =>
      obtain ⟨c, rest⟩ := p
      obtain ⟨-, -, hfit⟩ := tryAdd_eq_some hta
      rw [buildTrip]
      simp only [hta]
      exact ih (coordOf c) (trip ++ [c]) rest (Or.inr hfit)

theorem buildTrip_prefix (d : Coord → Coord → β) (articles : List Article)
    (limits : CapacityLimits) :
    ∀ (fuel : ℕ) (coord : Coord) (trip rem : List Child),
      ∃ tail, (buildTrip d articles limits fuel coord trip rem).1 = trip ++ tail := by
  intro fuel
  induction fuel with
  | zero => intro coord trip rem; exact ⟨[], by simp [buildTrip]⟩
  | succ n ih =>
    intro coord trip rem
    cases hta : tryAdd d articles limits coord trip rem with
    | none => exact ⟨[], by simp [buildTrip, hta]⟩
    | some p =>
      obtain ⟨c, rest⟩ := p
      obtain ⟨tail, htail⟩ := ih (coordOf c) (trip ++ [c]) rest
      refine ⟨c :: tail, ?_⟩
      rw [buildTrip]
      simp only [hta, htail, List.append_assoc, List.singleton_append]

end BuilderLemmas

section GreedyLemmas

variable {β : Type} [LinearOrder β]

theorem greedy_sound (d : Coord → Coord → β) (articles : List Article)
    (limits : CapacityLimits) :
    ∀ (fuel : ℕ) (remaining : List Child) (trips : List (List Child)),
      greedy_cluster_by_capacity d articles limits fuel remaining = some trips →
      ∀ trip ∈ trips, trip ≠ [] ∧ can_fit_in_sleigh articles limits
        (calculate_load_requirements trip) = true := by
  intro fuel
  induction fuel with
  | zero =>
    intro rem trips h
    simp [greedy_cluster_by_capacity] at h
  | succ n ih =>
    intro rem trips h
    rw [greedy_cluster_by_capacity] at h
    by_cases hre : rem.isEmpty
    · rw [if_pos hre] at h
      obtain rfl : ([] : List (List Child)) = trips := by simpa using h
      simp
    · rw [if_neg hre] at h
      simp only [] at h
      by_cases hct : (buildTrip d articles limits (rem.length + 1)
          north_pole [] rem).1.isEmpty
      · rw [if_pos hct] at h
        exact ih rem trips h
      · rw [if_neg hct] at h
        cases hg : greedy_cluster_by_capacity d articles limits n
            (buildTrip d articles limits (rem.length + 1) north_pole [] rem).2 with
        | none => rw [hg] at h; simp at h
        | some trips' =>
          rw [hg] at h
          obtain rfl : (buildTrip d articles limits (rem.length + 1)
              north_pole [] rem).1 :: trips' = trips := by simpa using h
          intro trip htrip
          rcases List.mem_cons.mp htrip with rfl | htrip
          · refine ⟨fun hnil => hct (by simp [hnil]), ?_⟩
            have hfits := buildTrip_fits d articles limits (rem.length + 1)
              north_pole [] rem (Or.inl rfl)
            exact hfits.resolve_left fun hnil => hct (by simp [hnil])
          · exact ih _ trips' hg trip htrip

theorem greedy_members (d : Coord → Coord → β) (articles : List Article)
    (limits : CapacityLimits) :
    ∀ (fuel : ℕ) (remaining : List Child) (trips : List (List Child)),
      greedy_cluster_by_capacity d articles limits fuel remaining = some trips →
      ∀ trip ∈ trips, ∀ c ∈ trip, c ∈ remaining := by
  intro fuel
  induction fuel with
  | zero =>
    intro rem trips h
    simp [greedy_cluster_by_capacity] at h
  | succ n ih =>
    intro rem trips h
    rw [greedy_cluster_by_capacity] at h
    by_cases hre : rem.isEmpty
    · rw [if_pos hre] at h
      obtain rfl : ([] : List (List Child)) = trips := by simpa using h
      simp
    · rw [if_neg hre] at h
      simp only [] at h
      have hperm : ((buildTrip d articles limits (rem.length + 1)
            north_pole [] rem).1 ++
          (buildTrip d articles limits (rem.length + 1) north_pole [] rem).2).Perm
            rem := by
        simpa using buildTrip_perm d articles limits (rem.length + 1)
          north_pole [] rem
      by_cases hct : (buildTrip d articles limits (rem.length + 1)
          north_pole [] rem).1.isEmpty
      · rw [if_pos hct] at h
        exact ih rem trips h
      · rw [if_neg hct] at h
        cases hg : greedy_cluster_by_capacity d articles limits n
            (buildTrip d articles limits (rem.length + 1) north_pole [] rem).2 with
        | none => rw [hg] at h; simp at h
        | some trips' =>
          rw [hg] at h
          obtain rfl : (buildTrip d articles limits (rem.length + 1)
              north_pole [] rem).1 :: trips' = trips := by simpa using h
          intro trip htrip c hc
          rcases List.mem_cons.mp htrip with rfl | htrip
          · exact hperm.mem_iff.mp (List.mem_append_left _ hc)
          · exact hperm.mem_iff.mp
              (List.mem_append_right _ (ih _ trips' hg trip htrip c hc))

theorem greedy_stuck (d : Coord → Coord → β) (articles : List Article)
    (limits : CapacityLimits) {rem : List Child} (hne : rem ≠ [])
    (hunfit : ∀ c ∈ rem, can_fit_in_sleigh articles limits
      (calculate_load_requirements [c]) = false) :
    ∀ fuel, greedy_cluster_by_capacity d articles limits fuel rem = none := by
  intro fuel
  induction fuel with
  | zero => rfl
  | succ n ih =>
    have hta : tryAdd d articles limits north_pole ([] : List Child) rem = none :=
      tryAdd_eq_none_of fun c hc => by simpa using hunfit c hc
    have hbt : buildTrip d articles limits (rem.length + 1)
        north_pole [] rem = ([], rem) := by
      rw [buildTrip, hta]
    rw [greedy_cluster_by_capacity, if_neg (by simpa using hne)]
    simp only [hbt, List.isEmpty_nil, if_pos]
    exact ih

theorem greedy_coverage (d : Coord → Coord → β) (articles : List Article)
    (limits : CapacityLimits) :
    ∀ (fuel : ℕ) (rem : List Child),
      (∀ c ∈ rem, can_fit_in_sleigh articles limits
        (calculate_load_requirements [c]) = true) →
      rem.length < fuel →
      ∃ trips, greedy_cluster_by_capacity d articles limits fuel rem = some trips ∧
        trips.flatten.Perm rem := by
  intro fuel
  induction fuel with
  | zero => intro rem _ h; exact absurd h (Nat.not_lt_zero _)
  | succ n ih =>
    intro rem hfit hlen
    by_cases hre : rem = []
    · subst hre
      exact ⟨[], by rw [greedy_cluster_by_capacity]; rfl, by simp⟩
    · have hsne : sort_values_by (fun c => d north_pole (coordOf c)) rem ≠ [] := by
        intro hnil
        have hl := length_sort_values_by (fun c => d north_pole (coordOf c)) rem
        rw [hnil] at hl
        exact hre (List.length_eq_zero.mp hl.symm)
      obtain ⟨s0, stail, hs⟩ := List.exists_cons_of_ne_nil hsne
      have hs0rem : s0 ∈ rem :=
        (mem_sort_values_by _).mp (hs ▸ List.mem_cons_self s0 stail)
      have hff : findFit articles limits []
          (sort_values_by (fun c => d north_pole (coordOf c)) rem) = some s0 := by
        rw [hs, findFit, if_pos (by simpa using hfit s0 hs0rem)]
      have hta : tryAdd d articles limits north_pole ([] : List Child) rem =
          some (s0, rem.erase s0) := by
        rw [tryAdd, hff]
        rfl
      have hbt1 : buildTrip d articles limits (rem.length + 1) north_pole [] rem =
          buildTrip d articles limits rem.length (coordOf s0) [s0] (rem.erase s0) := by
        rw [buildTrip, hta]
        rfl
      obtain ⟨tail, htail⟩ := buildTrip_prefix d articles limits rem.length
        (coordOf s0) [s0] (rem.erase s0)
      have hbne : (buildTrip d articles limits (rem.length + 1)
          north_pole [] rem).1 ≠ [] := by
        rw [hbt1, htail]
        simp
      have hperm : ((buildTrip d articles limits (rem.length + 1)
            north_pole [] rem).1 ++
          (buildTrip d articles limits (rem.length + 1) north_pole [] rem).2).Perm
            rem := by
        simpa using buildTrip_perm d articles limits (rem.length + 1)
          north_pole [] rem
      have hsub : ∀ c ∈ (buildTrip d articles limits (rem.length + 1)
          north_pole [] rem).2, c ∈ rem :=
        fun c hc => hperm.mem_iff.mp (List.mem_append_right _ hc)
      have hlen2 : (buildTrip d articles limits (rem.length + 1)
          north_pole [] rem).2.length < n := by
        have hl := hperm.length_eq
        rw [List.length_append] at hl
        have h1 : 0 < (buildTrip d articles limits (rem.length + 1)
            north_pole [] rem).1.length := List.length_pos.mpr hbne
        omega
      obtain ⟨trips', hg', hp'⟩ := ih _ (fun c hc => hfit c (hsub c hc)) hlen2
      refine ⟨(buildTrip d articles limits (rem.length + 1)
        north_pole [] rem).1 :: trips', ?_, ?_⟩
      · rw [greedy_cluster_by_capacity, if_neg (by simpa using hre)]
        simp only []
        rw [if_neg (by simpa using hbne), hg']
        rfl
      · rw [List.flatten_cons]
        exact (List.Perm.append_left _ hp').trans hperm

end GreedyLemmas

section SequencerLemmas

variable {β : Type} [LinearOrder β]

theorem idxmin_extract_perm {α : Type} (key : α → β) {l : List α} {c : α}
    {rest : List α} (h : idxmin_extract key l = some (c, rest)) :
    l.Perm (c :: rest) := by
  have hne : l ≠ [] := by
    rintro rfl
    simp [idxmin_extract] at h
  obtain ⟨m, pre, post, hidx, hsplit, -, -⟩ := idxmin_extract_spec key hne
  rw [h] at hidx
  have h2 : c = m ∧ rest = pre ++ post := by simpa using hidx
  obtain ⟨rfl, rfl⟩ := h2
  rw [hsplit]
  exact List.perm_middle

theorem nearest_neighbor_perm (d : Coord → Coord → β) :
    ∀ (fuel : ℕ) (coord : Coord) (rem : List Child), rem.length ≤ fuel →
      (nearest_neighbor_from_point d fuel coord rem).Perm rem := by
  intro fuel
  induction fuel with
  | zero =>
    intro coord rem h
    have hnil : rem = [] := List.length_eq_zero.mp (Nat.le_zero.mp h)
    subst hnil
    simp [nearest_neighbor_from_point]
  | succ n ih =>
    intro coord rem h
    rw [nearest_neighbor_from_point]
    cases hidx : idxmin_extract (fun c => d coord (coordOf c)) rem with
    | none =>
      have hnil : rem = [] := (idxmin_extract_nil_iff _).mp hidx
      subst hnil
      simp
    | some p =>
      obtain ⟨c, rest⟩ := p
      have hperm := idxmin_extract_perm _ hidx
      have hlen : rest.length ≤ n := by
        have hl := hperm.length_eq
        simp only [List.length_cons] at hl
        omega
      exact ((ih (coordOf c) rest hlen).cons c).trans hperm.symm

theorem optimize_trip_route_perm (d : Coord → Coord → β) (trip : List Child) :
    (optimize_trip_route d trip).Perm trip :=
  nearest_neighbor_perm d (trip.length + 1) north_pole trip (Nat.le_succ _)

end SequencerLemmas

/-! ### Lemmas on the geometric distance -/

theorem haversineA_comm (a b : ℝ × ℝ) : haversineA a b = haversineA b a := by
  have hsin : ∀ x y : ℝ, Real.sin ((x - y) / 2) ^ 2 = Real.sin ((y - x) / 2) ^ 2 := by
    intro x y
    rw [show (x - y) / 2 = -((y - x) / 2) by ring, Real.sin_neg]
    ring
  unfold haversineA
  rw [hsin (radiansOf b.1) (radiansOf a.1), hsin (radiansOf b.2) (radiansOf a.2)]
  ring

theorem haversineA_self (p : ℝ × ℝ) : haversineA p p = 0 := by
  unfold haversineA
  simp [sub_self]

theorem atan2_nonneg {y x : ℝ} (hy : 0 ≤ y) (hx : 0 ≤ x) : 0 ≤ atan2 y x := by
  unfold atan2
  split_ifs with h1 h2 h3 h4 h5
  · have h0 := Real.arctan_strictMono.monotone (div_nonneg hy h1.le)
    rwa [Real.arctan_zero] at h0
  · exact absurd h2.1 (not_lt.mpr hx)
  · exact absurd h3.1 (not_lt.mpr hx)
  · linarith [Real.pi_pos]
  · exact absurd h5.2 (not_lt.mpr hy)
  · exact le_refl 0

theorem atan2_zero_one : atan2 0 1 = 0 := by
  unfold atan2
  rw [if_pos one_pos]
  norm_num [Real.arctan_zero]

theorem haversine_distance_comm (a b : ℝ × ℝ) :
    haversine_distance a b = haversine_distance b a := by
  unfold haversine_distance
  rw [haversineA_comm a b]

theorem haversine_distance_self (p : ℝ × ℝ) : haversine_distance p p = 0 := by
  unfold haversine_distance
  rw [haversineA_self]
  norm_num [atan2_zero_one]

theorem haversine_distance_nonneg (a b : ℝ × ℝ) :
    0 ≤ haversine_distance a b := by
  unfold haversine_distance
  have h := atan2_nonneg (Real.sqrt_nonneg (haversineA a b))
    (Real.sqrt_nonneg (1 - haversineA a b))
  nlinarith

theorem child_distance_self (p : Coord) : child_distance p p = 0 :=
  haversine_distance_self _

/-! ### The cost model against the specified plan walk -/

theorem distanceLoop_eq_spec (gc : List Child) :
    ∀ (route : List RouteEntry) (cursor : Coord) (total : ℝ),
      distanceLoop gc cursor total route =
        (spec_total_distance_walk gc cursor route).map (fun s => total + s) := by
  intro route
  induction route with
  | nil =>
    intro cursor total
    simp [distanceLoop, spec_total_distance_walk]
  | cons e rest ih =>
    intro cursor total
    rw [distanceLoop, spec_total_distance_walk]
    by_cases he : e.stop = 0
    · rw [if_pos he, if_pos he]
      by_cases hc : cursor = north_pole
      · rw [if_neg (not_not_intro hc), if_pos hc, ih]
        subst hc
        cases hw : spec_total_distance_walk gc north_pole rest <;> simp [hw]
      · rw [if_pos hc, if_neg hc, ih]
        cases hw : spec_total_distance_walk gc north_pole rest <;>
          simp [hw, add_assoc]
    · rw [if_neg he, if_neg he]
      cases hf : findChild gc e.stop with
      | none => rfl
      | some ch =>
        simp only [ih]
        cases hw : spec_total_distance_walk gc (coordOf ch) rest <;>
          simp [hw, add_assoc]

/-! ### Lemmas on the serialized plan -/

section PlanLemmas

variable {β : Type} [LinearOrder β]

theorem total_refills_append (a b : List RouteEntry) :
    total_refills (a ++ b) = total_refills a + total_refills b := by
  simp [total_refills, List.filter_append]

theorem total_refills_refillRows (trip : List Child) :
    total_refills (refillRows trip) = (calculate_load_requirements trip).length := by
  rw [refillRows, total_refills, List.filter_map]
  simp [Function.comp_def, length_sort_values_by]

theorem mem_deliveryRows {d : Coord → Coord → β} {trip : List Child}
    {e : RouteEntry} (he : e ∈ deliveryRows d trip) :
    ∃ c ∈ trip, e.stop = c.child := by
  rw [deliveryRows] at he
  obtain ⟨c, hc, rfl⟩ := List.mem_map.mp he
  exact ⟨c, (optimize_trip_route_perm d trip).mem_iff.mp hc, rfl⟩

theorem total_refills_deliveryRows (d : Coord → Coord → β) {trip : List Child}
    (hid : ∀ c ∈ trip, c.child ≠ 0) :
    total_refills (deliveryRows d trip) = 0 := by
  rw [total_refills, List.length_eq_zero]
  rw [List.filter_eq_nil_iff]
  intro e he
  obtain ⟨c, hc, hstop⟩ := mem_deliveryRows he
  simp [hstop, hid c hc]

theorem deliveryRows_ne_nil (d : Coord → Coord → β) {trip : List Child}
    (h : trip ≠ []) : deliveryRows d trip ≠ [] := by
  rw [deliveryRows]
  intro hnil
  rw [List.map_eq_nil_iff] at hnil
  have hlen := (optimize_trip_route_perm d trip).length_eq
  rw [hnil] at hlen
  exact h (List.length_eq_zero.mp hlen.symm)

theorem block_last_delivery (d : Coord → Coord → β) {trip : List Child}
    (hne : trip ≠ []) (hid : ∀ c ∈ trip, c.child ≠ 0) :
    ∃ e, (refillRows trip ++ deliveryRows d trip).getLast? = some e ∧
      e.stop ≠ 0 := by
  have hdel : deliveryRows d trip ≠ [] := deliveryRows_ne_nil d hne
  refine ⟨(deliveryRows d trip).getLast hdel, ?_, ?_⟩
  · rw [List.getLast?_append_of_ne_nil _ hdel, List.getLast?_eq_getLast _ hdel]
  · obtain ⟨c, hc, hstop⟩ := mem_deliveryRows (List.getLast_mem hdel)
    rw [hstop]
    exact hid c hc

theorem flatten_last_nonzero :
    ∀ (blocks : List (List RouteEntry)),
      (∀ b ∈ blocks, ∃ e, b.getLast? = some e ∧ e.stop ≠ 0) →
      blocks.flatten = [] ∨
        ∃ e, blocks.flatten.getLast? = some e ∧ e.stop ≠ 0 := by
  intro blocks
  induction blocks with
  | nil => intro _; exact Or.inl rfl
  | cons b bs ih =>
    intro h
    rcases ih (fun b2 hb2 => h b2 (List.mem_cons_of_mem b hb2)) with hnil | ⟨e, he, hez⟩
    · rw [List.flatten_cons, hnil, List.append_nil]
      exact Or.inr (h b (List.mem_cons_self b bs))
    · have hfl : bs.flatten ≠ [] := by
        intro hn
        rw [hn] at he
        simp at he
      rw [List.flatten_cons]
      exact Or.inr ⟨e, by rw [List.getLast?_append_of_ne_nil _ hfl]; exact he, hez⟩

/-- A list whose last element is a delivery has, after every refill entry, a
later delivery entry. -/
theorem refill_followed_by_delivery {plan : List RouteEntry}
    (h : plan = [] ∨ ∃ e, plan.getLast? = some e ∧ e.stop ≠ 0) :
    ∀ (i : ℕ) (hi : i < plan.length), (plan.get ⟨i, hi⟩).stop = 0 →
      ∃ (j : ℕ) (hj : j < plan.length), i < j ∧ (plan.get ⟨j, hj⟩).stop ≠ 0 := by
  intro i hi hstop
  rcases h with rfl | ⟨e, he, hez⟩
  · simp at hi
  · have hne : plan ≠ [] := by
      intro hn
      rw [hn] at he
      simp at he
    have hlen : 0 < plan.length :=
      List.length_pos.mpr hne
    have hj : plan.length - 1 < plan.length := by omega
    have hget : plan.get ⟨plan.length - 1, hj⟩ = e := by
      have h2 := List.getLast?_eq_getElem? plan
      rw [he] at h2
      have h3 : plan[plan.length - 1]? = some e := h2.symm
      have h4 := List.getElem?_eq_getElem hj
      rw [h4] at h3
      simpa using h3
    refine ⟨plan.length - 1, hj, ?_, by rw [hget]; exact hez⟩
    rcases Nat.lt_or_ge i (plan.length - 1) with hlt | hge
    · exact hlt
    · exfalso
      have : i = plan.length - 1 := by omega
      subst this
      rw [hget] at hstop
      exact hez hstop

end PlanLemmas


/-! ### Concrete one-child runs

`ℚ` arithmetic does not reduce in the kernel, so the concrete capacity checks
are discharged by `norm_num` and the loop evaluations by the following
hypothesis-driven unfoldings. -/

section SingletonRuns

variable {β : Type} [LinearOrder β]

theorem tryAdd_singleton (d : Coord → Coord → β) (articles : List Article)
    (limits : CapacityLimits) (coord : Coord) (c : Child)
    (hfit : can_fit_in_sleigh articles limits
      (calculate_load_requirements [c]) = true) :
    tryAdd d articles limits coord [] [c] = some (c, []) := by
  rw [tryAdd]
  rw [show sort_values_by (fun x => d coord (coordOf x)) [c] = [c] from rfl]
  rw [findFit, if_pos (by simpa using hfit)]
  simp [List.erase_cons_head]

theorem greedy_singleton (d : Coord → Coord → β) (articles : List Article)
    (limits : CapacityLimits) (c : Child)
    (hfit : can_fit_in_sleigh articles limits
      (calculate_load_requirements [c]) = true) :
    greedy_cluster_by_capacity d articles limits 2 [c] = some [[c]] := by
  have hbt : buildTrip d articles limits ([c].length + 1) north_pole [] [c] =
      ([c], []) := by
    rw [show ([c].length + 1) = 1 + 1 from rfl, buildTrip,
      tryAdd_singleton d articles limits north_pole c hfit]
    rfl
  rw [show (2 : ℕ) = 1 + 1 from rfl, greedy_cluster_by_capacity,
    if_neg (by simp)]
  simp only [hbt]
  rfl

theorem generate_singleton (d : Coord → Coord → β) (articles : List Article)
    (limits : CapacityLimits) (c : Child)
    (hfit : can_fit_in_sleigh articles limits
      (calculate_load_requirements [c]) = true) :
    generate_route_plan d articles limits 2 [c] =
      some (refillRows [c] ++ deliveryRows d [c]) := by
  rw [generate_route_plan, greedy_singleton d articles limits c hfit]
  simp

end SingletonRuns

theorem demo_child1_fits :
    can_fit_in_sleigh demo_articles demo_limits
      (calculate_load_requirements [demo_child1]) = true := by
  norm_num [can_fit_in_sleigh, get_article_info, calculate_load_requirements,
    tallyWishes, demo_articles, demo_limits, demo_child1, List.find?]

theorem heavy_child_unfit :
    can_fit_in_sleigh heavy_articles heavy_limits
      (calculate_load_requirements [heavy_child]) = false := by
  norm_num [can_fit_in_sleigh, get_article_info, calculate_load_requirements,
    tallyWishes, heavy_articles, heavy_limits, heavy_child, List.find?]

/-! ### The claims -/

/-- Claim C9: the great-circle distance is symmetric, vanishes on identical
points, and is always non-negative. -/
theorem claim_c9_distance_symmetry (a b : ℝ × ℝ) :
    haversine_distance a b = haversine_distance b a ∧
      haversine_distance a a = 0 ∧ 0 ≤ haversine_distance a b :=
  ⟨haversine_distance_comm a b, haversine_distance_self a,
    haversine_distance_nonneg a b⟩

/-- Claim C5: `can_fit_in_sleigh` returns true iff the summed count-weighted
weights and volumes are both within the limits (boundary inclusive), with
demand entries whose article identifier has no catalog row contributing zero
weight and zero volume. -/
theorem claim_c5_fits_iff (articles : List Article) (limits : CapacityLimits)
    (demand : List (ℕ × ℕ)) :
    can_fit_in_sleigh articles limits demand = true ↔
      (demand.map (fun p =>
          (match articles.find? (fun a => a.article == p.1) with
            | none => (0 : ℚ)
            | some a => a.weight) * (p.2 : ℚ))).sum ≤ limits.maxWeight ∧
      (demand.map (fun p =>
          (match articles.find? (fun a => a.article == p.1) with
            | none => (0 : ℚ)
            | some a => a.volume) * (p.2 : ℚ))).sum ≤ limits.maxVolume := by
  have hw : (fun (p : ℕ × ℕ) => (get_article_info articles p.1).1 * (p.2 : ℚ)) =
      fun (p : ℕ × ℕ) =>
        (match articles.find? (fun a => a.article == p.1) with
          | none => (0 : ℚ)
          | some a => a.weight) * (p.2 : ℚ) := by
    funext p
    rw [get_article_info]
    cases articles.find? (fun a => a.article == p.1) <;> rfl
  have hv : (fun (p : ℕ × ℕ) => (get_article_info articles p.1).2 * (p.2 : ℚ)) =
      fun (p : ℕ × ℕ) =>
        (match articles.find? (fun a => a.article == p.1) with
          | none => (0 : ℚ)
          | some a => a.volume) * (p.2 : ℚ) := by
    funext p
    rw [get_article_info]
    cases articles.find? (fun a => a.article == p.1) <;> rfl
  rw [can_fit_in_sleigh_iff, hw, hv]

/-- Claim C6: `calculate_total_distance` computes exactly the specified walk:
the cursor starts at the depot, a refill marker away from the depot adds the
return leg and resets the cursor (zero when already at the depot), each
delivery stop adds its leg and advances the cursor, and the final return leg
is added at the end. -/
theorem claim_c6_total_distance (good_children : List Child)
    (route_plan : List RouteEntry) :
    calculate_total_distance good_children route_plan =
      spec_total_distance_walk good_children north_pole route_plan := by
  rw [calculate_total_distance, distanceLoop_eq_spec]
  cases hw : spec_total_distance_walk good_children north_pole route_plan <;>
    simp [hw]

/-- Claim C7: total time is total distance over speed plus dwell hours for the
delivery stops only (refill rows are excluded by `total_stops`), hence at
least total distance over speed whenever the dwell time is non-negative. -/
theorem claim_c7_total_time (good_children : List Child) (params : CostParams)
    (route_plan : List RouteEntry) (D : ℝ)
    (hdwell : 0 ≤ params.timePerStopMin)
    (hD : calculate_total_distance good_children route_plan = some D) :
    calculate_total_time good_children params route_plan =
      some (D / params.speedKmh +
        (total_stops route_plan : ℝ) * params.timePerStopMin / 60) ∧
    D / params.speedKmh ≤ D / params.speedKmh +
      (total_stops route_plan : ℝ) * params.timePerStopMin / 60 := by
  constructor
  · rw [calculate_total_time, hD]
    rfl
  · have h1 : (0 : ℝ) ≤ (total_stops route_plan : ℝ) * params.timePerStopMin / 60 :=
      div_nonneg (mul_nonneg (Nat.cast_nonneg _) hdwell) (by norm_num)
    linarith

/-- Witness for C7 at the empty plan with unit speed and zero dwell time. -/
theorem claim_c7_witness :
    calculate_total_time [] ⟨1, 0⟩ [] =
      some ((0 : ℝ) / 1 + (total_stops ([] : List RouteEntry) : ℝ) * 0 / 60) ∧
    (0 : ℝ) / 1 ≤ (0 : ℝ) / 1 +
      (total_stops ([] : List RouteEntry) : ℝ) * 0 / 60 :=
  claim_c7_total_time [] ⟨1, 0⟩ [] 0 (le_refl 0)
    (by simp [calculate_total_distance, distanceLoop, child_distance_self])

/-- Claim C2: every trip of a completed clustering satisfies the capacity
check on its aggregated demand, for any distance measure, catalog, limits,
fuel and input rows. -/
theorem claim_c2_capacity_invariant {β : Type} [LinearOrder β]
    (d : Coord → Coord → β) (articles : List Article) (limits : CapacityLimits)
    (fuel : ℕ) (children : List Child) (trips : List (List Child))
    (h : greedy_cluster_by_capacity d articles limits fuel children = some trips) :
    ∀ trip ∈ trips, can_fit_in_sleigh articles limits
      (calculate_load_requirements trip) = true :=
  fun trip htrip =>
    (greedy_sound d articles limits fuel children trips h trip htrip).2

/-- Witness for C2 on a concrete one-child run. -/
theorem claim_c2_witness :
    can_fit_in_sleigh demo_articles demo_limits
      (calculate_load_requirements [demo_child1]) = true :=
  claim_c2_capacity_invariant zero_distance demo_articles demo_limits 2
    [demo_child1] [[demo_child1]]
    (greedy_singleton zero_distance demo_articles demo_limits demo_child1
      demo_child1_fits)
    [demo_child1] (by simp)

/-- Claim C3: when every input row fits the sleigh on its own, the clustering
completes (with fuel beyond the input length, enough for its terminating
loop) and its trips cover the input rows exactly, each exactly once. -/
theorem claim_c3_coverage {β : Type} [LinearOrder β]
    (d : Coord → Coord → β) (articles : List Article) (limits : CapacityLimits)
    (fuel : ℕ) (children : List Child)
    (hfit : ∀ c ∈ children, can_fit_in_sleigh articles limits
      (calculate_load_requirements [c]) = true)
    (hfuel : children.length < fuel) :
    ∃ trips, greedy_cluster_by_capacity d articles limits fuel children =
      some trips ∧ trips.flatten.Perm children :=
  greedy_coverage d articles limits fuel children hfit hfuel

/-- Witness for C3 on a concrete one-child run. -/
theorem claim_c3_witness :
    ∃ trips, greedy_cluster_by_capacity zero_distance demo_articles demo_limits
      2 [demo_child1] = some trips ∧ trips.flatten.Perm [demo_child1] :=
  claim_c3_coverage zero_distance demo_articles demo_limits 2 [demo_child1]
    (by simpa using demo_child1_fits) (by norm_num)

/-- Claim C1: the code does not detect the infeasible single target.  On a
concrete input whose only child demands an article heavier than the weight
limit, the clustering loop makes no progress and never terminates: the
fuel-indexed model returns `none` for every fuel, which is exactly
non-termination of the source loop.  The specification instead requires a
fast reported failure, so this is a code bug. -/
theorem claim_c1_infinite_loop :
    ∀ fuel : ℕ, greedy_cluster_by_capacity child_distance heavy_articles
      heavy_limits fuel [heavy_child] = none :=
  greedy_stuck child_distance heavy_articles heavy_limits (by simp)
    (by simpa using heavy_child_unfit)

/-- Claim C10: no returned trip is empty, and every refill row of the
serialized plan is followed by a later delivery row (child identifiers being
non-zero keeps delivery rows distinguishable from refill rows). -/
theorem claim_c10_no_empty_trip {β : Type} [LinearOrder β]
    (d : Coord → Coord → β) (articles : List Article) (limits : CapacityLimits)
    (fuel : ℕ) (children : List Child) (trips : List (List Child))
    (plan : List RouteEntry)
    (hg : greedy_cluster_by_capacity d articles limits fuel children = some trips)
    (hp : generate_route_plan d articles limits fuel children = some plan)
    (hid : ∀ c ∈ children, c.child ≠ 0) :
    (∀ trip ∈ trips, trip ≠ []) ∧
    ∀ (i : ℕ) (hi : i < plan.length), (plan.get ⟨i, hi⟩).stop = 0 →
      ∃ (j : ℕ) (hj : j < plan.length), i < j ∧ (plan.get ⟨j, hj⟩).stop ≠ 0 := by
  have hsound := greedy_sound d articles limits fuel children trips hg
  have hmem := greedy_members d articles limits fuel children trips hg
  refine ⟨fun trip ht => (hsound trip ht).1, ?_⟩
  rw [generate_route_plan, hg] at hp
  have hplan : plan =
      (trips.map (fun trip => refillRows trip ++ deliveryRows d trip)).flatten := by
    simpa using hp.symm
  subst hplan
  apply refill_followed_by_delivery
  apply flatten_last_nonzero
  intro b hb
  obtain ⟨trip, htrip, rfl⟩ := List.mem_map.mp hb
  exact block_last_delivery d (hsound trip htrip).1
    (fun c hc => hid c (hmem trip htrip c hc))

/-- Witness for C10 on a concrete one-child run. -/
theorem claim_c10_witness :
    (∀ trip ∈ [[demo_child1]], trip ≠ []) ∧
    ∀ (i : ℕ) (hi : i < (refillRows [demo_child1] ++
        deliveryRows zero_distance [demo_child1]).length),
      ((refillRows [demo_child1] ++
        deliveryRows zero_distance [demo_child1]).get ⟨i, hi⟩).stop = 0 →
      ∃ (j : ℕ) (hj : j < (refillRows [demo_child1] ++
          deliveryRows zero_distance [demo_child1]).length), i < j ∧
        ((refillRows [demo_child1] ++
          deliveryRows zero_distance [demo_child1]).get ⟨j, hj⟩).stop ≠ 0 :=
  claim_c10_no_empty_trip zero_distance demo_articles demo_limits 2
    [demo_child1] [[demo_child1]]
    (refillRows [demo_child1] ++ deliveryRows zero_distance [demo_child1])
    (greedy_singleton zero_distance demo_articles demo_limits demo_child1
      demo_child1_fits)
    (generate_singleton zero_distance demo_articles demo_limits demo_child1
      demo_child1_fits)
    (by decide)

/-- Refill-row counting for a serialized trips list: one refill row per
distinct article per trip. -/
theorem total_refills_blocks {β : Type} [LinearOrder β] (d : Coord → Coord → β)
    (children : List Child) (hid : ∀ c ∈ children, c.child ≠ 0) :
    ∀ trips : List (List Child),
      (∀ trip ∈ trips, ∀ c ∈ trip, c ∈ children) →
      total_refills ((trips.map
          (fun trip => refillRows trip ++ deliveryRows d trip)).flatten) =
        (trips.map (fun trip => (calculate_load_requirements trip).length)).sum := by
  intro trips
  induction trips with
  | nil => intro _; simp [total_refills]
  | cons t ts ih =>
    intro hmem
    rw [List.map_cons, List.flatten_cons, total_refills_append,
      total_refills_append, total_refills_refillRows,
      total_refills_deliveryRows d
        (fun c hc => hid c (hmem t (List.mem_cons_self t ts) c hc)),
      ih (fun trip ht c hc => hmem trip (List.mem_cons_of_mem t ht) c hc),
      List.map_cons, List.sum_cons]
    omega

/-- Claim C4, amended: the refill-row count reported at the output boundary
(`total_refills`) equals the sum over trips of the number of distinct
articles that trip demands — one refill row per distinct article per trip —
not the number of trips. -/
theorem claim_c4_amended {β : Type} [LinearOrder β]
    (d : Coord → Coord → β) (articles : List Article) (limits : CapacityLimits)
    (fuel : ℕ) (children : List Child) (trips : List (List Child))
    (plan : List RouteEntry)
    (hg : greedy_cluster_by_capacity d articles limits fuel children = some trips)
    (hp : generate_route_plan d articles limits fuel children = some plan)
    (hid : ∀ c ∈ children, c.child ≠ 0) :
    total_refills plan =
      (trips.map (fun trip => (calculate_load_requirements trip).length)).sum := by
  have hmem := greedy_members d articles limits fuel children trips hg
  rw [generate_route_plan, hg] at hp
  have hplan : plan =
      (trips.map (fun trip => refillRows trip ++ deliveryRows d trip)).flatten := by
    simpa using hp.symm
  subst hplan
  exact total_refills_blocks d children hid trips hmem

/-- Witness for the amended C4 on a concrete one-child run. -/
theorem claim_c4_amended_witness :
    total_refills (refillRows [demo_child1] ++
        deliveryRows zero_distance [demo_child1]) =
      (([[demo_child1]] : List (List Child)).map
        (fun trip => (calculate_load_requirements trip).length)).sum :=
  claim_c4_amended zero_distance demo_articles demo_limits 2 [demo_child1]
    [[demo_child1]]
    (refillRows [demo_child1] ++ deliveryRows zero_distance [demo_child1])
    (greedy_singleton zero_distance demo_articles demo_limits demo_child1
      demo_child1_fits)
    (generate_singleton zero_distance demo_articles demo_limits demo_child1
      demo_child1_fits)
    (by decide)

/-- Counterexample to C4 as frozen: with two co-located children wishing two
different light articles, the planner builds a single trip, yet the serialized
plan carries two refill rows (one per distinct article), so the reported
refill count (2) differs from the number of trips (1). -/
theorem claim_c4_counterexample :
    greedy_cluster_by_capacity child_distance demo_articles demo_limits 2
        [demo_child1, demo_child2] = some [[demo_child1, demo_child2]] ∧
    generate_route_plan child_distance demo_articles demo_limits 2
        [demo_child1, demo_child2] =
      some [⟨0, some 1, some 1⟩, ⟨0, some 2, some 1⟩,
        ⟨1, none, none⟩, ⟨2, none, none⟩] ∧
    total_refills [⟨0, some 1, some 1⟩, ⟨0, some 2, some 1⟩,
        ⟨1, none, none⟩, ⟨2, none, none⟩] ≠
      ([[demo_child1, demo_child2]] : List (List Child)).length := by
  have hc1 : coordOf demo_child1 = ((0 : ℚ), (0 : ℚ)) := rfl
  have hc2 : coordOf demo_child2 = ((0 : ℚ), (0 : ℚ)) := rfl
  have hga1 : get_article_info demo_articles 1 = (1, 1) := rfl
  have hga2 : get_article_info demo_articles 2 = (1, 1) := rfl
  have hfit1 : can_fit_in_sleigh demo_articles demo_limits
      (calculate_load_requirements ([] ++ [demo_child1])) = true := by
    rw [show calculate_load_requirements ([] ++ [demo_child1]) = [(1, 1)]
      from rfl]
    simp only [can_fit_in_sleigh, List.foldl_cons, List.foldl_nil, hga1,
      demo_limits]
    norm_num
  have hfit12 : can_fit_in_sleigh demo_articles demo_limits
      (calculate_load_requirements ([demo_child1] ++ [demo_child2])) = true := by
    rw [show calculate_load_requirements ([demo_child1] ++ [demo_child2]) =
      [(1, 1), (2, 1)] from rfl]
    simp only [can_fit_in_sleigh, List.foldl_cons, List.foldl_nil, hga1, hga2,
      demo_limits]
    norm_num
  have hsort : sort_values_by (fun c => child_distance north_pole (coordOf c))
      [demo_child1, demo_child2] = [demo_child1, demo_child2] := by
    simp [sort_values_by, insertByKey, hc1, hc2]
  have hta1 : tryAdd child_distance demo_articles demo_limits north_pole []
      [demo_child1, demo_child2] = some (demo_child1, [demo_child2]) := by
    rw [tryAdd, hsort, findFit, if_pos hfit1]
    simp [List.erase_cons_head, demo_child1, demo_child2]
  have hta2 : tryAdd child_distance demo_articles demo_limits
      (coordOf demo_child1) [demo_child1] [demo_child2] =
      some (demo_child2, []) := by
    rw [tryAdd]
    rw [show sort_values_by
      (fun c => child_distance (coordOf demo_child1) (coordOf c))
      [demo_child2] = [demo_child2] from rfl]
    rw [findFit, if_pos hfit12]
    simp [List.erase_cons_head]
  have hbt : buildTrip child_distance demo_articles demo_limits
      ([demo_child1, demo_child2].length + 1) north_pole []
      [demo_child1, demo_child2] = ([demo_child1, demo_child2], []) := by
    rw [show [demo_child1, demo_child2].length + 1 = 2 + 1 from rfl,
      buildTrip, hta1]
    show buildTrip child_distance demo_articles demo_limits 2
      (coordOf demo_child1) [demo_child1] [demo_child2] =
      ([demo_child1, demo_child2], [])
    rw [show (2 : ℕ) = 1 + 1 from rfl, buildTrip, hta2]
    show buildTrip child_distance demo_articles demo_limits 1
      (coordOf demo_child2) [demo_child1, demo_child2] [] =
      ([demo_child1, demo_child2], [])
    rfl
  have hg : greedy_cluster_by_capacity child_distance demo_articles demo_limits
      2 [demo_child1, demo_child2] = some [[demo_child1, demo_child2]] := by
    rw [show (2 : ℕ) = 1 + 1 from rfl, greedy_cluster_by_capacity,
      if_neg (by simp)]
    simp only [hbt]
    rw [if_neg (by simp)]
    rw [show greedy_cluster_by_capacity child_distance demo_articles demo_limits
      1 ([] : List Child) = some [] from rfl]
    rfl
  have hidx : idxmin_extract (fun c => child_distance north_pole (coordOf c))
      [demo_child1, demo_child2] = some (demo_child1, [demo_child2]) := by
    simp [idxmin_extract, hc1, hc2]
  have hnn : nearest_neighbor_from_point child_distance
      ([demo_child1, demo_child2].length + 1) north_pole
      [demo_child1, demo_child2] = [demo_child1, demo_child2] := by
    rw [show [demo_child1, demo_child2].length + 1 = 2 + 1 from rfl,
      nearest_neighbor_from_point, hidx]
    rfl
  have hdel : deliveryRows child_distance [demo_child1, demo_child2] =
      [⟨1, none, none⟩, ⟨2, none, none⟩] := by
    rw [deliveryRows, optimize_trip_route, hnn]
    rfl
  have hplan : generate_route_plan child_distance demo_articles demo_limits 2
      [demo_child1, demo_child2] =
      some [⟨0, some 1, some 1⟩, ⟨0, some 2, some 1⟩,
        ⟨1, none, none⟩, ⟨2, none, none⟩] := by
    rw [generate_route_plan, hg]
    show some ((([[demo_child1, demo_child2]] : List (List Child)).map
      (fun trip => refillRows trip ++ deliveryRows child_distance trip)).flatten)
      = _
    rw [List.map_cons, List.map_nil, List.flatten_cons, List.flatten_nil,
      List.append_nil, hdel]
    rfl
  exact ⟨hg, hplan, by decide⟩
